import Mathlib

/-!
Verification of the face-tracking / gesture subsystem of the `past` repository
(`face_recognition/face_tracker.py`, `face_recognition/face_quality.py`,
`face_recognition/gesture_detector.py`, `face_recognition/crypto_payment.py`,
`face_recognition/main.py`), as a shallow embedding in Lean 4.

Modelling conventions, fixed once for the whole file:

* A face encoding (a numpy float vector produced by the external
  `face_recognition` library) is a `List ℚ`.  `face_recognition.face_distance`
  computes the Euclidean norm of the difference; since the source only ever
  compares such distances with each other (argmin) and with a fixed
  nonnegative threshold, we work with the *squared* distance and the *squared*
  threshold throughout.  `x ↦ x²` is strictly monotone on nonnegative reals,
  so argmin indices (including first-occurrence tie-breaking, as in
  `np.argmin`) and threshold comparisons are preserved exactly.

* A face image is represented by its Laplacian-variance sharpness score
  (`FaceQualityDetector.calculate_sharpness` delegates entirely to OpenCV,
  a third-party library; the repository's own code only ever compares the
  resulting scores).

* Wall-clock instants (`time.time()`, `datetime.now()`) are `ℚ` values that
  the per-call embedding receives as an explicit `now` argument.

* A Python `dict` is an insertion-ordered association list
  `List (String × α)`: updating an existing key rewrites the value in place,
  a new key is appended, `del` removes the entry, iteration order is list
  order.

* File-system writes (`FaceTracker._save_registry`) are modelled by a `disk`
  field holding the last written registry contents (IO itself is assumed to
  succeed; the source swallows write errors, which is outside the model).

* Uncaught Python exceptions (KeyError / IndexError on the registry lists)
  are modelled by `Option`: a `none` result is a raise.
-/

/-! ## Basic numeric helpers -/

/-- Squared Euclidean distance between two encodings
(`np.linalg.norm(a - b)` squared, componentwise over the common length). -/
def sqDist (a b : List ℚ) : ℚ :=
  (List.zipWith (fun x y => (x - y) ^ 2) a b).sum

/-- A face encoding (fixed-length numeric vector from the external model). -/
abbrev Encoding := List ℚ

/-- Auxiliary scan for `argminQ`: `i` is the absolute index of the head of
`l`, `(bi, bv)` the best index/value so far.  Replacement only on strict
decrease, matching `np.argmin`'s first-occurrence tie-breaking. -/
def argminAux : List ℚ → Nat → Nat → ℚ → Nat × ℚ
  | [], _, bi, bv => (bi, bv)
  | x :: xs, i, bi, bv =>
      if x < bv then argminAux xs (i + 1) i x else argminAux xs (i + 1) bi bv

/-- `np.argmin` together with the minimum value (first index achieving the
minimum), `none` on an empty list. -/
def argminQ : List ℚ → Option (Nat × ℚ)
  | [] => none
  | x :: xs => some (argminAux xs 1 0 x)

/-- Auxiliary scan for `argmaxQ`, mirroring `argminAux`. -/
def argmaxAux : List ℚ → Nat → Nat → ℚ → Nat × ℚ
  | [], _, bi, bv => (bi, bv)
  | x :: xs, i, bi, bv =>
      if bv < x then argmaxAux xs (i + 1) i x else argmaxAux xs (i + 1) bi bv

/-- `np.argmax` together with the maximum value (first index achieving the
maximum), `none` on an empty list. -/
def argmaxQ : List ℚ → Option (Nat × ℚ)
  | [] => none
  | x :: xs => some (argmaxAux xs 1 0 x)

theorem argminAux_le (l : List ℚ) :
    ∀ (i bi : Nat) (bv : ℚ), (argminAux l i bi bv).2 ≤ bv ∧
      ∀ x ∈ l, (argminAux l i bi bv).2 ≤ x := by
  induction l with
  | nil => intro i bi bv; exact ⟨le_refl _, by intro x hx; cases hx⟩
  | cons y ys ih =>
      intro i bi bv
      simp only [argminAux]
      by_cases h : y < bv
      · simp only [h, if_true]
        refine ⟨le_trans (ih (i + 1) i y).1 (le_of_lt h), ?_⟩
        intro x hx
        rcases List.mem_cons.mp hx with rfl | hx
        · exact (ih (i + 1) i x).1
        · exact (ih (i + 1) i y).2 x hx
      · simp only [h, if_false]
        refine ⟨(ih (i + 1) bi bv).1, ?_⟩
        intro x hx
        rcases List.mem_cons.mp hx with rfl | hx
        · exact le_trans (ih (i + 1) bi bv).1 (le_of_not_lt h)
        · exact (ih (i + 1) bi bv).2 x hx

theorem argminAux_get (l : List ℚ) :
    ∀ (i bi : Nat) (bv : ℚ),
      ((argminAux l i bi bv).1 = bi ∧ (argminAux l i bi bv).2 = bv) ∨
      (∃ j, l.get? j = some (argminAux l i bi bv).2 ∧
        (argminAux l i bi bv).1 = i + j) := by
  induction l with
  | nil => intro i bi bv; exact Or.inl ⟨rfl, rfl⟩
  | cons y ys ih =>
      intro i bi bv
      simp only [argminAux]
      by_cases h : y < bv
      · simp only [h, if_true]
        rcases ih (i + 1) i y with ⟨h1, h2⟩ | ⟨j, hj1, hj2⟩
        · exact Or.inr ⟨0, by simp [h2], by simpa using h1⟩
        · exact Or.inr ⟨j + 1, by simpa using hj1, by omega⟩
      · simp only [h, if_false]
        rcases ih (i + 1) bi bv with ⟨h1, h2⟩ | ⟨j, hj1, hj2⟩
        · exact Or.inl ⟨h1, h2⟩
        · exact Or.inr ⟨j + 1, by simpa using hj1, by omega⟩

/-- Specification of `argminQ`: the returned value sits at the returned index
and is a lower bound of the whole list. -/
theorem argminQ_spec (l : List ℚ) (i : Nat) (d : ℚ)
    (h : argminQ l = some (i, d)) :
    l.get? i = some d ∧ ∀ x ∈ l, d ≤ x := by
  cases l with
  | nil => simp [argminQ] at h
  | cons y ys =>
      simp only [argminQ, Option.some_inj] at h
      obtain ⟨rfl, rfl⟩ : i = (argminAux ys 1 0 y).1 ∧ d = (argminAux ys 1 0 y).2 := by
        rw [h]; exact ⟨rfl, rfl⟩
      have hle := argminAux_le ys 1 0 y
      have hget := argminAux_get ys 1 0 y
      constructor
      · rcases hget with ⟨h1, h2⟩ | ⟨j, hj1, hj2⟩
        · simp [h1, h2]
        · rw [hj2, Nat.add_comm]; simpa using hj1
      · intro x hx
        rcases List.mem_cons.mp hx with rfl | hx
        · exact hle.1
        · exact hle.2 x hx

theorem argmaxAux_ge (l : List ℚ) :
    ∀ (i bi : Nat) (bv : ℚ), bv ≤ (argmaxAux l i bi bv).2 ∧
      ∀ x ∈ l, x ≤ (argmaxAux l i bi bv).2 := by
  induction l with
  | nil => intro i bi bv; exact ⟨le_refl _, by intro x hx; cases hx⟩
  | cons y ys ih =>
      intro i bi bv
      simp only [argmaxAux]
      by_cases h : bv < y
      · simp only [h, if_true]
        refine ⟨le_trans (le_of_lt h) (ih (i + 1) i y).1, ?_⟩
        intro x hx
        rcases List.mem_cons.mp hx with rfl | hx
        · exact (ih (i + 1) i x).1
        · exact (ih (i + 1) i y).2 x hx
      · simp only [h, if_false]
        refine ⟨(ih (i + 1) bi bv).1, ?_⟩
        intro x hx
        rcases List.mem_cons.mp hx with rfl | hx
        · exact le_trans (le_of_not_lt h) (ih (i + 1) bi bv).1
        · exact (ih (i + 1) bi bv).2 x hx

theorem argmaxAux_get (l : List ℚ) :
    ∀ (i bi : Nat) (bv : ℚ),
      ((argmaxAux l i bi bv).1 = bi ∧ (argmaxAux l i bi bv).2 = bv) ∨
      (∃ j, l.get? j = some (argmaxAux l i bi bv).2 ∧
        (argmaxAux l i bi bv).1 = i + j) := by
  induction l with
  | nil => intro i bi bv; exact Or.inl ⟨rfl, rfl⟩
  | cons y ys ih =>
      intro i bi bv
      simp only [argmaxAux]
      by_cases h : bv < y
      · simp only [h, if_true]
        rcases ih (i + 1) i y with ⟨h1, h2⟩ | ⟨j, hj1, hj2⟩
        · exact Or.inr ⟨0, by simp [h2], by simpa using h1⟩
        · exact Or.inr ⟨j + 1, by simpa using hj1, by omega⟩
      · simp only [h, if_false]
        rcases ih (i + 1) bi bv with ⟨h1, h2⟩ | ⟨j, hj1, hj2⟩
        · exact Or.inl ⟨h1, h2⟩
        · exact Or.inr ⟨j + 1, by simpa using hj1, by omega⟩

/-- Specification of `argmaxQ`: the returned value sits at the returned index
and is an upper bound of the whole list. -/
theorem argmaxQ_spec (l : List ℚ) (i : Nat) (d : ℚ)
    (h : argmaxQ l = some (i, d)) :
    l.get? i = some d ∧ ∀ x ∈ l, x ≤ d := by
  cases l with
  | nil => simp [argmaxQ] at h
  | cons y ys =>
      simp only [argmaxQ, Option.some_inj] at h
      obtain ⟨rfl, rfl⟩ : i = (argmaxAux ys 1 0 y).1 ∧ d = (argmaxAux ys 1 0 y).2 := by
        rw [h]; exact ⟨rfl, rfl⟩
      have hle := argmaxAux_ge ys 1 0 y
      have hget := argmaxAux_get ys 1 0 y
      constructor
      · rcases hget with ⟨h1, h2⟩ | ⟨j, hj1, hj2⟩
        · simp [h1, h2]
        · rw [hj2, Nat.add_comm]; simpa using hj1
      · intro x hx
        rcases List.mem_cons.mp hx with rfl | hx
        · exact hle.1
        · exact hle.2 x hx

/-! ## Python dict as an insertion-ordered association list -/

/-- `d[k]` lookup returning `none` when the key is absent (first matching
key wins, as in `dict`). -/
def dictGet? {α : Type} (k : String) : List (String × α) → Option α
  | [] => none
  | p :: rest => if p.1 = k then some p.2 else dictGet? k rest

/-- The in-place rewrite of the entry for `k` used by dict assignment on an
existing key. -/
def updEntry {α : Type} (k : String) (v : α) (p : String × α) : String × α :=
  if p.1 = k then (k, v) else p

/-- `d[k] = v`: update in place when the key exists (preserving position),
append otherwise — Python dict assignment semantics. -/
def dictInsert {α : Type} (k : String) (v : α) (d : List (String × α)) :
    List (String × α) :=
  match dictGet? k d with
  | some _ => d.map (updEntry k v)
  | none => d ++ [(k, v)]

/-- `del d[k]` (no-op when absent; the source only deletes present keys). -/
def dictRemove {α : Type} (k : String) (d : List (String × α)) :
    List (String × α) :=
  d.filter (fun p => ¬ (p.1 == k))

theorem dictGet?_map_updEntry_self {α : Type} (k : String) (v : α)
    (d : List (String × α)) :
    dictGet? k (d.map (updEntry k v)) = (dictGet? k d).map (fun _ => v) := by
  induction d with
  | nil => rfl
  | cons p rest ih =>
      by_cases h : p.1 = k
      · simp [dictGet?, updEntry, h]
      · simp [dictGet?, updEntry, h, ih]

theorem dictGet?_map_updEntry_ne {α : Type} (k k' : String) (v : α)
    (d : List (String × α)) (hne : k ≠ k') :
    dictGet? k' (d.map (updEntry k v)) = dictGet? k' d := by
  induction d with
  | nil => rfl
  | cons p rest ih =>
      by_cases h : p.1 = k
      · simp [dictGet?, updEntry, h, hne, Ne.symm hne, ih]
      · simp [dictGet?, updEntry, h, ih]

theorem dictGet?_append_single_self {α : Type} (k : String) (v : α)
    (d : List (String × α)) (h : dictGet? k d = none) :
    dictGet? k (d ++ [(k, v)]) = some v := by
  induction d with
  | nil => simp [dictGet?]
  | cons p rest ih =>
      by_cases hp : p.1 = k
      · simp [dictGet?, hp] at h
      · simp only [dictGet?, hp, if_false, List.cons_append] at h ⊢
        exact ih h

theorem dictGet?_append_single_ne {α : Type} (k k' : String) (v : α)
    (d : List (String × α)) (hne : k ≠ k') :
    dictGet? k' (d ++ [(k, v)]) = dictGet? k' d := by
  induction d with
  | nil => simp [dictGet?, hne]
  | cons p rest ih =>
      by_cases hp : p.1 = k'
      · simp [dictGet?, hp]
      · simp only [dictGet?, hp, if_false, List.cons_append]
        exact ih

theorem dictGet?_dictInsert_self {α : Type} (k : String) (v : α)
    (d : List (String × α)) : dictGet? k (dictInsert k v d) = some v := by
  unfold dictInsert
  cases hf : dictGet? k d with
  | none => exact dictGet?_append_single_self k v d hf
  | some w => rw [dictGet?_map_updEntry_self, hf]; rfl

theorem dictGet?_dictInsert_ne {α : Type} (k k' : String) (v : α)
    (d : List (String × α)) (hne : k ≠ k') :
    dictGet? k' (dictInsert k v d) = dictGet? k' d := by
  unfold dictInsert
  cases hf : dictGet? k d with
  | none => exact dictGet?_append_single_ne k k' v d hne
  | some w => exact dictGet?_map_updEntry_ne k k' v d hne

theorem dictGet?_dictRemove_self {α : Type} (k : String) (d : List (String × α)) :
    dictGet? k (dictRemove k d) = none := by
  induction d with
  | nil => rfl
  | cons p rest ih =>
      simp only [dictRemove, List.filter]
      by_cases h : p.1 = k
      · simpa [h, dictRemove] using ih
      · simp only [show ((¬ (p.1 == k)) : Bool) = true by simpa using h]
        simpa [dictGet?, h, dictRemove] using ih

/-- Inserting anywhere preserves presence of every key. -/
theorem dictGet?_dictInsert_isSome {α : Type} (k k' : String) (v : α)
    (d : List (String × α)) (h : (dictGet? k' d).isSome) :
    (dictGet? k' (dictInsert k v d)).isSome := by
  by_cases hk : k = k'
  · subst hk; rw [dictGet?_dictInsert_self]; rfl
  · rwa [dictGet?_dictInsert_ne k k' v d hk]

/-! ## Person-id strings (`FaceTracker._generate_person_id` and the
numeric-suffix parse in `FaceTracker._load_registry`) -/

/-- The ASCII character of a decimal digit. -/
def digitChar (d : Nat) : Char := Char.ofNat (48 + d)

/-- The decimal value of an ASCII digit character. -/
def charVal (c : Char) : Nat := c.toNat - 48

/-- Decimal representation of a natural number, empty for 0 (Python's
`str(0) = "0"` differs only for 0, where the zero-padding below makes both
come out as `"000"`). -/
def natDecimal (n : Nat) : List Char := ((Nat.digits 10 n).map digitChar).reverse

/-- Zero-pad to width 3 (`f"{n:03d}"`). -/
def padChars3 (cs : List Char) : List Char :=
  List.replicate (3 - cs.length) '0' ++ cs

/-- Character list of `f"person_{n:03d}"`. -/
def personIdChars (n : Nat) : List Char :=
  ['p', 'e', 'r', 's', 'o', 'n', '_'] ++ padChars3 (natDecimal n)

/-- `f"person_{n:03d}"`, the id format of `_generate_person_id`. -/
def personIdString (n : Nat) : String := ⟨personIdChars n⟩

/-- `s.split('_')[1]`: the characters strictly between the first underscore
and the following underscore (or end of string).  Empty when the string has
no underscore, which models the `IndexError` Python would raise there. -/
def splitField1 (s : String) : List Char :=
  ((s.data.dropWhile (fun c => c != '_')).drop 1).takeWhile (fun c => c != '_')

/-- `int(cs)` for a digit string: `none` (a `ValueError`) unless `cs` is a
nonempty run of decimal digits. -/
def parseNatDigits (cs : List Char) : Option Nat :=
  if cs ≠ [] ∧ cs.all (fun c => c.isDigit) then
    some (Nat.ofDigits 10 ((cs.map charVal).reverse))
  else none

/-- `int(pid.split('_')[1])`, the numeric suffix of a person id; `none`
models the uncaught `IndexError`/`ValueError` for malformed keys. -/
def idSuffix (s : String) : Option Nat := parseNatDigits (splitField1 s)

theorem charVal_digitChar {d : Nat} (hd : d < 10) : charVal (digitChar d) = d := by
  interval_cases d <;> decide

theorem digitChar_isDigit {d : Nat} (hd : d < 10) : (digitChar d).isDigit = true := by
  interval_cases d <;> decide

theorem digitChar_ne_underscore {d : Nat} (hd : d < 10) :
    (digitChar d != '_') = true := by
  interval_cases d <;> decide

theorem mem_padChars3_natDecimal {n : Nat} {c : Char}
    (hc : c ∈ padChars3 (natDecimal n)) :
    c = '0' ∨ ∃ d, d < 10 ∧ c = digitChar d := by
  rcases List.mem_append.mp hc with h | h
  · exact Or.inl (List.eq_of_mem_replicate h)
  · rcases List.mem_reverse.mp h with h'
    rcases List.mem_map.mp h' with ⟨d, hd, rfl⟩
    exact Or.inr ⟨d, Nat.digits_lt_base (by norm_num) hd, rfl⟩

theorem ofDigits_replicate_zero (k : Nat) :
    Nat.ofDigits 10 (List.replicate k 0) = 0 := by
  induction k with
  | zero => rfl
  | succ m ih => simp [List.replicate, Nat.ofDigits_cons, ih]

/-- Round trip: the numeric suffix of a generated person id is the counter
value it was generated from. -/
theorem idSuffix_personIdString (n : Nat) : idSuffix (personIdString n) = some n := by
  have hmem : ∀ c ∈ padChars3 (natDecimal n), (c != '_') = true := by
    intro c hc
    rcases mem_padChars3_natDecimal hc with rfl | ⟨d, hd, rfl⟩
    · decide
    · exact digitChar_ne_underscore hd
  have hsplit : splitField1 (personIdString n) = padChars3 (natDecimal n) := by
    show ((((personIdChars n).dropWhile (fun c => c != '_')).drop 1).takeWhile
        (fun c => c != '_')) = padChars3 (natDecimal n)
    have hdrop : (personIdChars n).dropWhile (fun c => c != '_') =
        '_' :: padChars3 (natDecimal n) := by
      simp [personIdChars, List.dropWhile]
    rw [hdrop]
    simp only [List.drop_one, List.tail_cons]
    exact List.takeWhile_eq_self_iff.mpr hmem
  have hne : padChars3 (natDecimal n) ≠ [] := by
    have : (padChars3 (natDecimal n)).length =
        (3 - (natDecimal n).length) + (natDecimal n).length := by
      simp [padChars3]
    intro h
    rw [h] at this
    simp at this
    omega
  have hdig : (padChars3 (natDecimal n)).all (fun c => c.isDigit) = true := by
    rw [List.all_eq_true]
    intro c hc
    rcases mem_padChars3_natDecimal hc with rfl | ⟨d, hd, rfl⟩
    · decide
    · exact digitChar_isDigit hd
  have hid : ∀ l : List Nat, (∀ d ∈ l, d < 10) →
      l.map (fun d => charVal (digitChar d)) = l := by
    intro l
    induction l with
    | nil => intro _; rfl
    | cons a as ih =>
        intro h
        simp only [List.map_cons, charVal_digitChar (h a (by simp)),
          ih (fun d hd => h d (by simp [hd])), List.cons.injEq, and_self]
  have hdec : (natDecimal n).map charVal = (Nat.digits 10 n).reverse := by
    rw [natDecimal, List.map_reverse, List.map_map]
    have h := hid (Nat.digits 10 n)
      (fun d hd => Nat.digits_lt_base (by norm_num) hd)
    have hc : (charVal ∘ digitChar) = (fun d => charVal (digitChar d)) := rfl
    rw [hc, h]
  have hmapval : (padChars3 (natDecimal n)).map charVal =
      List.replicate (3 - (natDecimal n).length) 0 ++ (Nat.digits 10 n).reverse := by
    rw [padChars3, List.map_append, List.map_replicate, hdec]
    rfl
  rw [idSuffix, hsplit, parseNatDigits, if_pos ⟨hne, hdig⟩]
  rw [hmapval]
  rw [List.reverse_append, List.reverse_reverse, List.reverse_replicate]
  rw [Nat.ofDigits_append, ofDigits_replicate_zero, Nat.ofDigits_digits]
  norm_num

/-! ## Configuration constants (`config.py`) -/

namespace Config

/-- `DUPLICATE_THRESHOLD = 0.45`, stored squared (see the header). -/
def DUPLICATE_THRESHOLD_SQ : ℚ := (45 / 100) ^ 2

/-- `QUALITY_FRAMES_TO_COLLECT = 5`. -/
def QUALITY_FRAMES_TO_COLLECT : Nat := 5

/-- `GESTURE_COOLDOWN_SECONDS = 1.0`. -/
def GESTURE_COOLDOWN_SECONDS : ℚ := 1

/-- `PAYMENT_HOLD_DURATION = 2.0`. -/
def PAYMENT_HOLD_DURATION : ℚ := 2

/-- `PAYMENT_COOLDOWN = 30.0`. -/
def PAYMENT_COOLDOWN : ℚ := 30

end Config

/-! ## Face quality (`face_quality.py`) -/

/-- A face image, represented by its Laplacian-variance sharpness score
(`FaceQualityDetector.calculate_sharpness` delegates the score computation
wholesale to OpenCV; the repository's code only compares the scores). -/
structure Image where
  sharpness : ℚ
deriving DecidableEq, Inhabited

/-- A face bounding box `(top, right, bottom, left)`. -/
abbrev Location := Nat × Nat × Nat × Nat

/-- One pending multi-frame collection
(`MultiFrameCollector.pending_collections[person_hash]`). -/
structure Collection where
  frames : List Image
  encodings : List Encoding
  locations : List Location
  count : Nat
deriving DecidableEq

/-- `MultiFrameCollector` state: the configured frame count and the pending
collections dict. -/
structure Collector where
  num_frames : Nat
  pending : List (String × Collection)
deriving DecidableEq

/-- `MultiFrameCollector.start_collection`. -/
def startCollection (h : String) (c : Collector) : Collector :=
  { c with pending := dictInsert h ⟨[], [], [], 0⟩ c.pending }

/-- `MultiFrameCollector.add_frame`: `False` (and no change) when no
collection was started for the hash; otherwise append the frame and report
whether the collection is complete (`count >= num_frames`). -/
def addFrame (h : String) (frame : Image) (enc : Encoding) (loc : Location)
    (c : Collector) : Bool × Collector :=
  match dictGet? h c.pending with
  | none => (false, c)
  | some col =>
      let col' : Collection :=
        ⟨col.frames ++ [frame], col.encodings ++ [enc],
         col.locations ++ [loc], col.count + 1⟩
      (decide (c.num_frames ≤ col'.count),
       { c with pending := dictInsert h col' c.pending })

/-- `MultiFrameCollector.get_best_frame`: `(None, None, None, 0.0)` without
deleting anything when the hash is unknown or the collection holds no frames;
otherwise the first sharpest frame (via `np.argmax`, i.e.
`FaceQualityDetector.select_best_face`) and deletion of the collection. -/
def getBestFrame (h : String) (c : Collector) :
    (Option (Image × Encoding × Location) × ℚ) × Collector :=
  match dictGet? h c.pending with
  | none => ((none, 0), c)
  | some col =>
      match argmaxQ (col.frames.map Image.sharpness) with
      | none => ((none, 0), c)
      | some (i, s) =>
          ((some (col.frames.getD i default, col.encodings.getD i [],
            col.locations.getD i default), s),
           { c with pending := dictRemove h c.pending })

/-- `MultiFrameCollector.is_collecting`. -/
def isCollecting (h : String) (c : Collector) : Bool :=
  (dictGet? h c.pending).isSome

/-- `MultiFrameCollector.get_collection_progress`. -/
def getCollectionProgress (h : String) (c : Collector) : Nat :=
  match dictGet? h c.pending with
  | none => 0
  | some col => col.count

/-- `FaceQualityDetector.get_quality_rating`. -/
def getQualityRating (s : ℚ) : String :=
  if 200 ≤ s then "Excellent"
  else if 150 ≤ s then "Very Good"
  else if 100 ≤ s then "Good"
  else if 50 ≤ s then "Fair"
  else "Poor"

/-! ## Face tracker (`face_tracker.py`) -/

/-- `FaceTracker._encoding_to_hash`: a SHA-256 digest of the encoding bytes.
Hashing is delegated to `hashlib` (third-party); we model the digest by the
printed representation of the encoding, which like the source is a pure
function of the encoding used only as an opaque tag. -/
def encodingHash (e : Encoding) : String := toString e

/-- One registry record, as built by `track_face` /
`_handle_quality_collection` and persisted as JSON.  The `sharpness_score`
and `quality_rating` keys exist only for records saved through the quality
path, modelled by `Option`; `supabase_url` is constantly `None` in this model
(`ENABLE_SUPABASE_UPLOAD` disabled) and is omitted. -/
structure Record where
  id : String
  first_seen : ℚ
  last_seen : ℚ
  image_path : String
  timestamp : Nat
  sharpness_score : Option ℚ
  quality_rating : Option String
  encoding_hash : String
  detection_count : Nat
  person_info : Option String
  api_called : Bool
deriving DecidableEq

/-- The JSON registry: a dict from person id to record. -/
abbrev Registry := List (String × Record)

/-- The mutable state of a `FaceTracker`, plus the modelled contents of the
registry file (`disk`, rewritten in full by `_save_registry`).
`collector` is `some _` exactly when `ENABLE_QUALITY_CHECK` is on. -/
structure TrackerState where
  registry : Registry
  tracked_encodings : List Encoding
  tracked_ids : List String
  next_person_id : Nat
  duplicate_threshold_sq : ℚ
  collector : Option Collector
  disk : Registry
deriving DecidableEq

/-- `FaceTracker._generate_person_id`. -/
def generatePersonId (st : TrackerState) : String × TrackerState :=
  (personIdString st.next_person_id,
   { st with next_person_id := st.next_person_id + 1 })

/-- `FaceTracker._is_duplicate`: nearest tracked encoding by Euclidean
distance (squared in the model), matched when the minimum distance is within
the threshold.  `none` models the `IndexError` raised when
`tracked_ids[min_distance_idx]` is out of range. -/
def isDuplicate (st : TrackerState) (e : Encoding) : Option (Bool × Option String) :=
  if st.tracked_encodings = [] then some (false, none)
  else
    match argminQ (st.tracked_encodings.map (fun t => sqDist t e)) with
    | none => some (false, none)
    | some (i, d) =>
        if d ≤ st.duplicate_threshold_sq then
          match st.tracked_ids.get? i with
          | some pid => some (true, some pid)
          | none => none
        else some (false, none)

/-- `f"{person_id}_{timestamp}.png"`. -/
def imageFilename (pid : String) (ts : Nat) : String :=
  pid ++ "_" ++ toString ts ++ ".png"

/-- The registry record built for a newly saved face. -/
def mkNewRecord (pid : String) (now : ℚ) (ts : Nat) (e : Encoding)
    (sharp : Option ℚ) (rating : Option String) : Record :=
  { id := pid
    first_seen := now
    last_seen := now
    image_path := "detected_faces/" ++ imageFilename pid ts
    timestamp := ts
    sharpness_score := sharp
    quality_rating := rating
    encoding_hash := encodingHash e
    detection_count := 1
    person_info := none
    api_called := false }

/-- Does the collection match the new encoding (compare against the
*first* buffered encoding, within the duplicate threshold)? -/
def matchesPending (thrSq : ℚ) (e : Encoding) (col : Collection) : Bool :=
  match col.encodings with
  | [] => false
  | e0 :: _ => decide (sqDist e0 e ≤ thrSq)

/-- The pending-collection scan at the top of
`_handle_quality_collection` (first match in dict order wins). -/
def findMatchingPending (thrSq : ℚ) (e : Encoding)
    (pending : List (String × Collection)) : Option String :=
  (pending.find? (fun p => matchesPending thrSq e p.2)).map (·.1)

/-- `f"pending_{encoding_hash}_{int(time.time() * 1000)}"`. -/
def mkPendingHash (e : Encoding) (ts : Nat) : String :=
  "pending_" ++ encodingHash e ++ "_" ++ toString ts

/-- `FaceTracker._handle_quality_collection` for a non-duplicate face in
quality-check mode: find or start the pending collection, add the cropped
frame, and on completion commit the sharpest buffered crop as a freshly
minted identity (saving the registry). -/
def handleQualityCollection (st : TrackerState) (c : Collector) (faceCrop : Image)
    (e : Encoding) (loc : Location) (now : ℚ) (ts : Nat) :
    (Option String × Bool) × TrackerState :=
  let h := match findMatchingPending st.duplicate_threshold_sq e c.pending with
           | some h0 => h0
           | none => mkPendingHash e ts
  let c1 := match findMatchingPending st.duplicate_threshold_sq e c.pending with
            | some _ => c
            | none => startCollection h c
  let r := addFrame h faceCrop e loc c1
  if r.1 then
    let g := getBestFrame h r.2
    match g.1.1 with
    | none => ((none, false), { st with collector := some g.2 })
    | some best =>
        let s := g.1.2
        let pid := personIdString st.next_person_id
        let rcd := mkNewRecord pid now ts best.2.1 (some s)
          (some (getQualityRating s))
        let reg' := dictInsert pid rcd st.registry
        ((some pid, true),
         { registry := reg'
           tracked_encodings := st.tracked_encodings ++ [best.2.1]
           tracked_ids := st.tracked_ids ++ [pid]
           next_person_id := st.next_person_id + 1
           duplicate_threshold_sq := st.duplicate_threshold_sq
           collector := some g.2
           disk := reg' })
  else ((none, false), { st with collector := some r.2 })

/-- `FaceTracker.track_face` for the hand at the given frame: duplicate path
updates the matched record (persisting only every 10th detection), otherwise
a new identity is saved immediately (no quality mode) or the frame goes into
quality collection.  `none` models an uncaught KeyError/IndexError. -/
def trackFace (st : TrackerState) (faceCrop : Image) (e : Encoding)
    (loc : Location) (now : ℚ) (ts : Nat) :
    Option ((Option String × Bool) × TrackerState) :=
  match isDuplicate st e with
  | none => none
  | some (true, some pid) =>
      match dictGet? pid st.registry with
      | none => none
      | some rcd =>
          let rcd' := { rcd with
            detection_count := rcd.detection_count + 1
            last_seen := now }
          let reg' := dictInsert pid rcd' st.registry
          some ((some pid, false),
            { st with
              registry := reg'
              disk := if (rcd.detection_count + 1) % 10 = 0 then reg' else st.disk })
  | some (true, none) => none
  | some (false, _) =>
      match st.collector with
      | some c => some (handleQualityCollection st c faceCrop e loc now ts)
      | none =>
          let pid := personIdString st.next_person_id
          let rcd := mkNewRecord pid now ts e none none
          let reg' := dictInsert pid rcd st.registry
          some ((some pid, true),
            { st with
              registry := reg'
              tracked_encodings := st.tracked_encodings ++ [e]
              tracked_ids := st.tracked_ids ++ [pid]
              next_person_id := st.next_person_id + 1
              disk := reg' })

/-- `FaceTracker.store_api_response` (persists when the id is present,
no-op otherwise). -/
def storeApiResponse (st : TrackerState) (pid : String) (info : String) :
    TrackerState :=
  match dictGet? pid st.registry with
  | none => st
  | some rcd =>
      let reg' := dictInsert pid
        { rcd with person_info := some info, api_called := true } st.registry
      { st with registry := reg', disk := reg' }

/-- `FaceTracker.reset`. -/
def resetTracker (st : TrackerState) : TrackerState :=
  { st with
    registry := []
    tracked_encodings := []
    tracked_ids := []
    next_person_id := 1
    disk := [] }

/-- Outcome of opening and JSON-parsing the registry file in
`_load_registry`: absent, unreadable/invalid JSON, or parsed content. -/
inductive FileRead where
  | missing
  | unreadable
  | content (reg : Registry)

/-- `max([int(pid.split('_')[1]) for pid in registry.keys()])`: `none`
models the uncaught `ValueError`/`IndexError` on a malformed key. -/
def maxSuffixes (reg : Registry) : Option Nat :=
  let parsed := reg.map (fun p => idSuffix p.1)
  if parsed.all (·.isSome) then some ((parsed.filterMap id).foldl Nat.max 0)
  else none

/-- `FaceTracker._load_registry`.  `encOf` is the recomputation of an
encoding from a stored image path (`face_recognition.load_image_file` +
`face_encodings`, both third-party): `none` covers a missing file, a load
error, and an image with no detectable face — exactly the records the
source drops from the in-memory match lists.  A failure while computing the
max id suffix is caught by the outer handler, which resets `registry` (and
nothing else) — after the match lists were already populated. -/
def loadRegistry (file : FileRead) (encOf : String → Option Encoding)
    (st : TrackerState) : TrackerState :=
  match file with
  | .missing => st
  | .unreadable => { st with registry := [] }
  | .content reg =>
      let kept := reg.filterMap
        (fun p => (encOf p.2.image_path).map (fun e => (e, p.1)))
      let st1 := { st with
        registry := reg
        tracked_encodings := st.tracked_encodings ++ kept.map (·.1)
        tracked_ids := st.tracked_ids ++ kept.map (·.2) }
      if reg.isEmpty then st1
      else
        match maxSuffixes reg with
        | some m => { st1 with next_person_id := m + 1 }
        | none => { st1 with registry := [] }

/-! ## Gesture state machines (`gesture_detector.py`, `crypto_payment.py`,
`main.py`)

The snap/peace geometry predicates are pure functions of the MediaPipe hand
landmarks (third-party data); the embedding receives their outcome per frame
as explicit inputs: `inPos` (the `in_snap_position` conjunction of distance
and angle thresholds) together with the `confidence` score computed from the
same geometry, and `criteriaMet` (the number of satisfied peace criteria out
of 10).  The model follows one hand, the one at MediaPipe enumeration
index 0, where the detector's state key `f"{label}_{idx}"` and the main
loop's key `f"{label}_0"` agree. -/

/-- `gesture_states[hand_id]` of `GestureDetector`. -/
structure SnapState where
  active : Bool
  start_time : ℚ
  last_print_time : ℚ
  payment_triggered : Bool
deriving DecidableEq

/-- The fresh per-hand state installed on first sight of a hand. -/
def initSnapState : SnapState :=
  { active := false, start_time := 0, last_print_time := 0, payment_triggered := false }

/-- `GestureDetector._detect_snap`, given the per-frame geometry outcome:
returns `(is_snap_detected, confidence, hold_duration)` and the updated
per-hand state. -/
def detectSnap (inPos : Bool) (conf : ℚ) (now : ℚ) (s : SnapState) :
    (Bool × ℚ × ℚ) × SnapState :=
  if inPos then
    if s.active = false then
      ((true, conf, 0),
       { active := true, start_time := now, last_print_time := now, payment_triggered := false })
    else
      let s' := if 2 < now - s.last_print_time then { s with last_print_time := now } else s
      ((true, conf, now - s.start_time), s')
  else
    if s.active then
      ((false, 0, 0), { s with active := false, payment_triggered := false })
    else ((false, 0, 0), s)

/-- `CryptoPaymentHandler.can_send_payment`: the global cooldown check
against the last *successful* payment time. -/
def canSendPayment (now lastPaymentTime : ℚ) : Bool :=
  decide (¬ (now - lastPaymentTime < Config.PAYMENT_COOLDOWN))

/-- The per-frame state the payment trigger in `FaceRecognitionApp.run`
operates on: the tracked hand's snap state and the handler's
`last_payment_time` (which only a *successful* background payment updates;
within a run of frames it is constant, hence a plain field). -/
structure AppState where
  snap : SnapState
  last_payment_time : ℚ
deriving DecidableEq

/-- One frame of the main loop's gesture/payment processing
(`main.py`): run `_detect_snap`, then dispatch the payment thread iff the
event is a snap whose hold duration reached `PAYMENT_HOLD_DURATION`, the
hand's `payment_triggered` latch is clear and the global cooldown passes;
dispatching sets the latch.  The returned `Bool` reports whether a payment
thread was started this frame. -/
def appStep (inPos : Bool) (conf now : ℚ) (a : AppState) : AppState × Bool :=
  let r := detectSnap inPos conf now a.snap
  if r.1.1 = true ∧ Config.PAYMENT_HOLD_DURATION ≤ r.1.2.2 ∧
      r.2.payment_triggered = false ∧
      canSendPayment now a.last_payment_time = true then
    ({ a with snap := { r.2 with payment_triggered := true } }, true)
  else ({ a with snap := r.2 }, false)

/-- Run the main loop over a list of frames `(inPos, confidence, now)`,
counting dispatched payments. -/
def appRun : AppState → List (Bool × ℚ × ℚ) → AppState × Nat
  | a, [] => (a, 0)
  | a, x :: rest =>
      let r := appStep x.1 x.2.1 x.2.2 a
      let rr := appRun r.1 rest
      (rr.1, (if r.2 then 1 else 0) + rr.2)

/-- Peace-sign per-hand state: the times of the recorded candidate
detections (`peace_stability[hand_id]['frames']`, each entry keeping its
detection time) and the per-hand cooldown stamp
(`gesture_cooldowns["peace_" + hand_id]`, absent before the first
detection). -/
structure PeaceState where
  stability : List ℚ
  cooldown : Option ℚ
deriving DecidableEq

/-- `GestureDetector._detect_peace_sign`, given the number of satisfied
geometric criteria for the frame: prune stability entries older than 0.5 s,
record the frame when at least 8 of 10 criteria hold, report a detection
when additionally at least 3 recorded frames are in the window — unless the
per-hand cooldown of `GESTURE_COOLDOWN_SECONDS` is still running, in which
case `(False, 0.0)` is returned (with the stability buffer kept). -/
def detectPeace (criteriaMet : Nat) (now : ℚ) (st : PeaceState) :
    (Bool × ℚ) × PeaceState :=
  let pruned := st.stability.filter (fun t => decide (now - t < 1 / 2))
  let frames := if 8 ≤ criteriaMet then pruned ++ [now] else pruned
  if 8 ≤ criteriaMet ∧ 3 ≤ frames.length then
    let conf0 := (criteriaMet : ℚ) / 10
    let conf := if 5 ≤ frames.length then min 1 (conf0 + 1 / 10) else conf0
    match st.cooldown with
    | some t =>
        if now - t < Config.GESTURE_COOLDOWN_SECONDS then
          ((false, 0), { st with stability := frames })
        else ((true, conf), { stability := [], cooldown := some now })
    | none => ((true, conf), { stability := [], cooldown := some now })
  else ((false, 0), { st with stability := frames })

/-- Run `_detect_peace_sign` over a list of frames `(criteriaMet, now)`,
returning the last frame's report and the final state. -/
def peaceRun : PeaceState → List (Nat × ℚ) → (Bool × ℚ) × PeaceState
  | st, [] => ((false, 0), st)
  | st, [x] => detectPeace x.1 x.2 st
  | st, x :: y :: rest => peaceRun (detectPeace x.1 x.2 st).2 (y :: rest)

/-! ## Theorems -/

/-- C5: snap state machine transitions — on entry (predicate newly holds)
`active` is set, `start_time` is stamped with the current time and
`payment_triggered` is reset; while the predicate keeps holding the reported
hold duration is `now - start_time` (with `active`, `start_time` and
`payment_triggered` untouched); when the predicate fails while active, both
`active` and `payment_triggered` are cleared and `(False, 0.0, 0.0)` is
reported. -/
theorem snap_state_machine (inPos : Bool) (conf now : ℚ) (s : SnapState) :
    (inPos = true → s.active = false →
      detectSnap inPos conf now s =
        ((true, conf, 0),
         { active := true, start_time := now, last_print_time := now,
           payment_triggered := false })) ∧
    (inPos = true → s.active = true →
      (detectSnap inPos conf now s).1 = (true, conf, now - s.start_time) ∧
      (detectSnap inPos conf now s).2.active = true ∧
      (detectSnap inPos conf now s).2.start_time = s.start_time ∧
      (detectSnap inPos conf now s).2.payment_triggered = s.payment_triggered) ∧
    (inPos = false → s.active = true →
      detectSnap inPos conf now s =
        ((false, 0, 0), { s with active := false, payment_triggered := false })) := by
  refine ⟨?_, ?_, ?_⟩
  · intro hp ha
    simp [detectSnap, hp, ha]
  · intro hp ha
    by_cases hpr : 2 < now - s.last_print_time
    · simp [detectSnap, hp, ha, hpr]
    · simp [detectSnap, hp, ha, hpr]
  · intro hp ha
    simp [detectSnap, hp, ha]

/-- Witness for C5 at a concrete entry transition. -/
theorem snap_state_machine_witness :
    detectSnap true 1 5 initSnapState =
      ((true, 1, 0),
       { active := true, start_time := 5, last_print_time := 5,
         payment_triggered := false }) :=
  (snap_state_machine true 1 5 initSnapState).1 rfl rfl

theorem appRun_triggered_zero (inputs : List (Bool × ℚ × ℚ)) :
    ∀ a : AppState, a.snap.active = true → a.snap.payment_triggered = true →
      (∀ x ∈ inputs, x.1 = true) → (appRun a inputs).2 = 0 := by
  induction inputs with
  | nil => intro a _ _ _; rfl
  | cons x rest ih =>
      intro a hact htrig hall
      have hx : x.1 = true := hall x (List.mem_cons_self x rest)
      have hsnap : detectSnap x.1 x.2.1 x.2.2 a.snap =
          ((true, x.2.1, x.2.2 - a.snap.start_time),
           if 2 < x.2.2 - a.snap.last_print_time then
             { a.snap with last_print_time := x.2.2 } else a.snap) := by
        simp [detectSnap, hx, hact]
      have hstep : appStep x.1 x.2.1 x.2.2 a =
          ({ a with snap := if 2 < x.2.2 - a.snap.last_print_time then
              { a.snap with last_print_time := x.2.2 } else a.snap }, false) := by
        unfold appStep
        rw [hsnap]
        rw [if_neg]
        intro hc
        rcases hc with ⟨-, -, hc3, -⟩
        by_cases hpr : 2 < x.2.2 - a.snap.last_print_time <;>
          simp [hpr, htrig] at hc3
      have h2 : (appRun a (x :: rest)).2 =
          (if (appStep x.1 x.2.1 x.2.2 a).2 then 1 else 0) +
          (appRun (appStep x.1 x.2.1 x.2.2 a).1 rest).2 := rfl
      rw [h2, hstep]
      simp only [Bool.false_eq_true, if_false, Nat.zero_add]
      refine ih _ ?_ ?_ (fun y hy => hall y (List.mem_cons_of_mem x hy))
      · by_cases hpr : 2 < x.2.2 - a.snap.last_print_time <;> simp [hpr, hact]
      · by_cases hpr : 2 < x.2.2 - a.snap.last_print_time <;> simp [hpr, htrig]

theorem appStep_active (conf now : ℚ) (a : AppState) (hact : a.snap.active = true) :
    (appStep true conf now a).1.snap.active = true ∧
    ((appStep true conf now a).2 = true →
      (appStep true conf now a).1.snap.payment_triggered = true) ∧
    ((appStep true conf now a).2 = false →
      (appStep true conf now a).1.snap.payment_triggered = a.snap.payment_triggered) := by
  simp only [appStep]
  have hsnap : detectSnap true conf now a.snap =
      ((true, conf, now - a.snap.start_time),
       if 2 < now - a.snap.last_print_time then
         { a.snap with last_print_time := now } else a.snap) := by
    simp [detectSnap, hact]
  rw [hsnap]
  by_cases hpr : 2 < now - a.snap.last_print_time
  · rw [if_pos hpr]
    split
    · exact ⟨hact, fun _ => rfl, fun h => absurd h (by simp)⟩
    · exact ⟨hact, fun h => absurd h (by simp), fun _ => rfl⟩
  · rw [if_neg hpr]
    split
    · exact ⟨hact, fun _ => rfl, fun h => absurd h (by simp)⟩
    · exact ⟨hact, fun h => absurd h (by simp), fun _ => rfl⟩

theorem appRun_active_le_one (inputs : List (Bool × ℚ × ℚ)) :
    ∀ a : AppState, a.snap.active = true → (∀ x ∈ inputs, x.1 = true) →
      (appRun a inputs).2 ≤ 1 := by
  induction inputs with
  | nil => intro a _ _; exact Nat.zero_le 1
  | cons x rest ih =>
      intro a hact hall
      have hx : x.1 = true := hall x (List.mem_cons_self x rest)
      have h2 : (appRun a (x :: rest)).2 =
          (if (appStep x.1 x.2.1 x.2.2 a).2 then 1 else 0) +
          (appRun (appStep x.1 x.2.1 x.2.2 a).1 rest).2 := rfl
      rw [h2, hx]
      have hstep := appStep_active x.2.1 x.2.2 a hact
      cases hfire : (appStep true x.2.1 x.2.2 a).2 with
      | false =>
          simp only [Bool.false_eq_true, if_false, Nat.zero_add]
          exact ih _ hstep.1 (fun y hy => hall y (List.mem_cons_of_mem x hy))
      | true =>
          have hz := appRun_triggered_zero rest (appStep true x.2.1 x.2.2 a).1
            hstep.1 (hstep.2.1 hfire)
            (fun y hy => hall y (List.mem_cons_of_mem x hy))
          simp [hz]

/-- C2: the payment side effect is dispatched at most once per uninterrupted
snap hold — over any run of frames on which the snap predicate continuously
holds, started from the inactive state, at most one payment thread is
dispatched; and a dispatch can happen only on a frame where the reported
hold duration has reached `PAYMENT_HOLD_DURATION`, the hand's
`payment_triggered` latch is clear and `can_send_payment` passes, the
dispatch setting the latch. -/
theorem snap_payment_at_most_once (a : AppState) (inputs : List (Bool × ℚ × ℚ))
    (hstart : a.snap.active = false) (hhold : ∀ x ∈ inputs, x.1 = true) :
    (appRun a inputs).2 ≤ 1 ∧
    (∀ (inPos : Bool) (conf now : ℚ) (b : AppState),
      (appStep inPos conf now b).2 = true →
        inPos = true ∧
        Config.PAYMENT_HOLD_DURATION ≤ (detectSnap inPos conf now b.snap).1.2.2 ∧
        (detectSnap inPos conf now b.snap).2.payment_triggered = false ∧
        canSendPayment now b.last_payment_time = true ∧
        (appStep inPos conf now b).1.snap.payment_triggered = true) := by
  constructor
  · cases inputs with
    | nil => exact Nat.zero_le 1
    | cons x rest =>
        have hx : x.1 = true := hhold x (List.mem_cons_self x rest)
        have h2 : (appRun a (x :: rest)).2 =
            (if (appStep x.1 x.2.1 x.2.2 a).2 then 1 else 0) +
            (appRun (appStep x.1 x.2.1 x.2.2 a).1 rest).2 := rfl
        rw [h2, hx]
        have hsnap : detectSnap true x.2.1 x.2.2 a.snap =
            ((true, x.2.1, 0),
             { active := true, start_time := x.2.2, last_print_time := x.2.2,
               payment_triggered := false }) := by
          simp [detectSnap, hstart]
        have hact1 : (appStep true x.2.1 x.2.2 a).1.snap.active = true := by
          simp only [appStep]
          rw [hsnap]
          split <;> rfl
        have htrig1 : (appStep true x.2.1 x.2.2 a).2 = true →
            (appStep true x.2.1 x.2.2 a).1.snap.payment_triggered = true := by
          simp only [appStep]
          rw [hsnap]
          split
          · intro _; rfl
          · intro h; exact absurd h (by simp)
        cases hfire : (appStep true x.2.1 x.2.2 a).2 with
        | false =>
            simp only [Bool.false_eq_true, if_false, Nat.zero_add]
            exact appRun_active_le_one rest _ hact1
              (fun y hy => hhold y (List.mem_cons_of_mem x hy))
        | true =>
            have hz := appRun_triggered_zero rest (appStep true x.2.1 x.2.2 a).1
              hact1 (htrig1 hfire)
              (fun y hy => hhold y (List.mem_cons_of_mem x hy))
            simp [hz]
  · intro inPos conf now b hfire
    simp only [appStep] at hfire
    split at hfire
    · rename_i hc
      obtain ⟨hc1, hc2, hc3, hc4⟩ := hc
      have hip : inPos = true := by
        cases inPos with
        | true => rfl
        | false =>
            exfalso
            by_cases hb : b.snap.active = true <;>
              simp [detectSnap, hb] at hc1
      refine ⟨hip, hc2, hc3, hc4, ?_⟩
      simp only [appStep]
      rw [if_pos ⟨hc1, hc2, hc3, hc4⟩]
    · exact absurd hfire (by simp)

/-- Witness for C2 on a concrete two-frame hold that dispatches a payment. -/
theorem snap_payment_at_most_once_witness :
    (∀ x ∈ [((true : Bool), (1 : ℚ), (0 : ℚ)), (true, 1, 3)], x.1 = true) ∧
    (appRun ⟨initSnapState, -100⟩
      [((true : Bool), (1 : ℚ), (0 : ℚ)), (true, 1, 3)]).2 ≤ 1 :=
  ⟨by decide,
   (snap_payment_at_most_once ⟨initSnapState, -100⟩
     [((true : Bool), (1 : ℚ), (0 : ℚ)), (true, 1, 3)] rfl (by decide)).1⟩

theorem argmaxQ_eq_none (l : List ℚ) : argmaxQ l = none ↔ l = [] := by
  cases l <;> simp [argmaxQ]

/-- C10: a pending frame collection is consumed exactly once — a successful
`get_best_frame` deletes the collection, after which `is_collecting` is
`False`, the progress is 0 and a second `get_best_frame` yields
`(None, None, None, 0.0)` without further change; `add_frame` for a hash
with no started collection returns `False` and creates nothing. -/
theorem collection_consumed_once (c : Collector) (h : String) (col : Collection)
    (hcol : dictGet? h c.pending = some col) (hne : col.frames ≠ []) :
    (∃ best s c', getBestFrame h c = ((some best, s), c') ∧
      c' = { c with pending := dictRemove h c.pending } ∧
      isCollecting h c' = false ∧
      getCollectionProgress h c' = 0 ∧
      getBestFrame h c' = ((none, 0), c')) ∧
    (∀ (h2 : String) (c2 : Collector) (img2 : Image) (enc2 : Encoding)
      (loc2 : Location), dictGet? h2 c2.pending = none →
        addFrame h2 img2 enc2 loc2 c2 = (false, c2)) := by
  constructor
  · have hmapne : col.frames.map Image.sharpness ≠ [] := by
      simpa using hne
    cases hma : argmaxQ (col.frames.map Image.sharpness) with
    | none => exact absurd ((argmaxQ_eq_none _).mp hma) hmapne
    | some p =>
        obtain ⟨i, s⟩ := p
        have hrm : dictGet? h (dictRemove h c.pending) = none :=
          dictGet?_dictRemove_self h c.pending
        refine ⟨(col.frames.getD i default, col.encodings.getD i [],
          col.locations.getD i default), s,
          { c with pending := dictRemove h c.pending }, ?_, rfl, ?_, ?_, ?_⟩
        · simp only [getBestFrame, hcol, hma]
        · unfold isCollecting
          rw [show ({ c with pending := dictRemove h c.pending } : Collector).pending =
            dictRemove h c.pending from rfl, hrm]
          rfl
        · unfold getCollectionProgress
          rw [show ({ c with pending := dictRemove h c.pending } : Collector).pending =
            dictRemove h c.pending from rfl, hrm]
        · unfold getBestFrame
          rw [show ({ c with pending := dictRemove h c.pending } : Collector).pending =
            dictRemove h c.pending from rfl, hrm]
  · intro h2 c2 img2 enc2 loc2 hnone
    unfold addFrame
    rw [hnone]

/-- A three-frame collection used to exercise the collector lemmas. -/
def collectorSample : Collector :=
  ⟨5, [("hash", ⟨[⟨1⟩, ⟨3⟩, ⟨2⟩], [[0], [0], [0]],
    [(0, 0, 0, 0), (0, 0, 0, 0), (0, 0, 0, 0)], 3⟩)]⟩

/-- Witness for C10 on a concrete collection. -/
theorem collection_consumed_once_witness :
    isCollecting "hash" (getBestFrame "hash" collectorSample).2 = false := by
  obtain ⟨⟨best, s, c', h1, -, h3, -, -⟩, -⟩ :=
    collection_consumed_once collectorSample "hash"
      ⟨[⟨1⟩, ⟨3⟩, ⟨2⟩], [[0], [0], [0]],
        [(0, 0, 0, 0), (0, 0, 0, 0), (0, 0, 0, 0)], 3⟩
      (by decide) (by decide)
  rw [h1]
  exact h3


/-- C6 counterexample: the peace sign is reported on the fourth frame of this
trace even though the three frames leading up to the report were *not* all
candidate frames (the second frame satisfies 0 of the 10 criteria) — the
stability window counts candidate detections within the last 0.5 s and is
not reset by non-candidate frames, so "stable over at least 3 consecutive
frames" fails on the code. -/
theorem peace_stability_counterexample :
    (peaceRun ⟨[], none⟩
      [(8, 0), (0, 1 / 10), (8, 1 / 5), (8, 3 / 10)]).1.1 = true ∧
    ¬ (∀ x ∈ ([((8 : Nat), (0 : ℚ)), (0, 1 / 10), (8, 1 / 5),
      (8, 3 / 10)].drop 1), 8 ≤ x.1) := by
  constructor
  · norm_num [peaceRun, detectPeace, Config.GESTURE_COOLDOWN_SECONDS]
  · intro hall
    have := hall (0, 1 / 10) (by norm_num)
    omega

/-- C6 (amended): a peace sign is reported for a hand only when at least 8 of
the 10 criteria hold on the current frame, at least 3 recorded candidate
detections (current frame included) fall within the 0.5-second stability
window — the recorded frames need not be consecutive — and the per-hand
cooldown of `GESTURE_COOLDOWN_SECONDS` has expired; a report stamps the
cooldown, and while the cooldown is running the detector returns
`(False, 0.0)`. -/
theorem peace_detection_amended (criteriaMet : Nat) (now : ℚ) (st : PeaceState) :
    ((detectPeace criteriaMet now st).1.1 = true →
      8 ≤ criteriaMet ∧
      3 ≤ ((st.stability.filter (fun t => decide (now - t < 1 / 2))) ++ [now]).length ∧
      (∀ t, st.cooldown = some t → Config.GESTURE_COOLDOWN_SECONDS ≤ now - t) ∧
      (detectPeace criteriaMet now st).2.cooldown = some now) ∧
    (∀ t, st.cooldown = some t → now - t < Config.GESTURE_COOLDOWN_SECONDS →
      (detectPeace criteriaMet now st).1 = (false, 0)) := by
  constructor
  · intro hrep
    by_cases hcand : 8 ≤ criteriaMet
    · by_cases hstab : 3 ≤ ((st.stability.filter
          (fun t => decide (now - t < 1 / 2))) ++ [now]).length
      · have hpass : ∀ t, st.cooldown = some t →
            ¬ now - t < Config.GESTURE_COOLDOWN_SECONDS := by
          intro t ht hlt
          have hfalse : (detectPeace criteriaMet now st).1.1 = false := by
            simp only [detectPeace, if_pos hcand]
            rw [if_pos ⟨hcand, hstab⟩]
            simp only [ht]
            rw [if_pos hlt]
          rw [hfalse] at hrep
          exact absurd hrep (by simp)
        refine ⟨hcand, hstab, fun t ht => le_of_not_lt (hpass t ht), ?_⟩
        cases hc : st.cooldown with
        | none =>
            simp only [detectPeace, if_pos hcand]
            rw [if_pos ⟨hcand, hstab⟩]
            simp only [hc]
        | some t =>
            simp only [detectPeace, if_pos hcand]
            rw [if_pos ⟨hcand, hstab⟩]
            simp only [hc]
            rw [if_neg (hpass t hc)]
      · have hfalse : (detectPeace criteriaMet now st).1.1 = false := by
          simp only [detectPeace, if_pos hcand]
          rw [if_neg (fun hco => hstab hco.2)]
        rw [hfalse] at hrep
        exact absurd hrep (by simp)
    · have hfalse : (detectPeace criteriaMet now st).1.1 = false := by
        simp only [detectPeace, if_neg hcand]
        rw [if_neg (fun hco => hcand hco.1)]
      rw [hfalse] at hrep
      exact absurd hrep (by simp)
  · intro t ht hcd
    by_cases hcand : 8 ≤ criteriaMet
    · by_cases hstab : 3 ≤ ((st.stability.filter
          (fun t => decide (now - t < 1 / 2))) ++ [now]).length
      · simp only [detectPeace, if_pos hcand]
        rw [if_pos ⟨hcand, hstab⟩]
        simp only [ht]
        rw [if_pos hcd]
      · simp only [detectPeace, if_pos hcand]
        rw [if_neg (fun hco => hstab hco.2)]
    · simp only [detectPeace, if_neg hcand]
      rw [if_neg (fun hco => hcand hco.1)]

/-- Witness for C6 at a reporting frame and a cooldown-suppressed frame. -/
theorem peace_detection_amended_witness :
    ((8 : Nat) ≤ 8 ∧
      3 ≤ (([(0 : ℚ), 0].filter (fun t => decide ((0 : ℚ) - t < 1 / 2))) ++ [(0 : ℚ)]).length ∧
      (∀ t, (some (-5 : ℚ) : Option ℚ) = some t → Config.GESTURE_COOLDOWN_SECONDS ≤ 0 - t) ∧
      (detectPeace 8 0 ⟨[0, 0], some (-5)⟩).2.cooldown = some 0) ∧
    (detectPeace 8 0 ⟨[0, 0], some 0⟩).1 = (false, 0) := by
  constructor
  · exact (peace_detection_amended 8 0 ⟨[0, 0], some (-5)⟩).1 (by norm_num [detectPeace, Config.GESTURE_COOLDOWN_SECONDS])
  · exact (peace_detection_amended 8 0 ⟨[0, 0], some 0⟩).2 0 rfl (by norm_num [Config.GESTURE_COOLDOWN_SECONDS])

/-- C1: nearest-neighbour matching in `track_face` — when the minimum
(squared) distance from the new encoding to the tracked encodings exists
and is within the duplicate threshold, the call re-observes the closest
tracked identity: its `detection_count` is incremented, `last_seen` is set
to the current time and `(existing_id, False)` is returned with the match
lists untouched; when there is no tracked encoding or the minimum distance
is strictly above the threshold (and quality mode is off), a fresh identity
`person_{next_person_id}` is minted, saved and returned with `True`. -/
theorem track_face_matching (st : TrackerState) (img : Image) (e : Encoding)
    (loc : Location) (now : ℚ) (ts : Nat) :
    (∀ i d pid rcd,
      argminQ (st.tracked_encodings.map (fun t => sqDist t e)) = some (i, d) →
      d ≤ st.duplicate_threshold_sq →
      st.tracked_ids.get? i = some pid →
      dictGet? pid st.registry = some rcd →
      (∀ x ∈ st.tracked_encodings.map (fun t => sqDist t e), d ≤ x) ∧
      trackFace st img e loc now ts = some ((some pid, false),
        { st with
          registry := dictInsert pid
            { rcd with detection_count := rcd.detection_count + 1, last_seen := now }
            st.registry
          disk := if (rcd.detection_count + 1) % 10 = 0 then
              dictInsert pid
                { rcd with detection_count := rcd.detection_count + 1, last_seen := now }
                st.registry
            else st.disk }) ∧
      dictGet? pid (dictInsert pid
        { rcd with detection_count := rcd.detection_count + 1, last_seen := now }
        st.registry) = some
        { rcd with detection_count := rcd.detection_count + 1, last_seen := now }) ∧
    ((st.tracked_encodings = [] ∨
      ∀ i d, argminQ (st.tracked_encodings.map (fun t => sqDist t e)) = some (i, d) →
        st.duplicate_threshold_sq < d) →
      st.collector = none →
      trackFace st img e loc now ts = some
        ((some (personIdString st.next_person_id), true),
         { st with
           registry := dictInsert (personIdString st.next_person_id)
             (mkNewRecord (personIdString st.next_person_id) now ts e none none)
             st.registry
           tracked_encodings := st.tracked_encodings ++ [e]
           tracked_ids := st.tracked_ids ++ [personIdString st.next_person_id]
           next_person_id := st.next_person_id + 1
           disk := dictInsert (personIdString st.next_person_id)
             (mkNewRecord (personIdString st.next_person_id) now ts e none none)
             st.registry })) := by
  constructor
  · intro i d pid rcd hargmin hle hid hrcd
    have hne : st.tracked_encodings ≠ [] := by
      intro h
      rw [h] at hargmin
      simp [argminQ] at hargmin
    have hdup : isDuplicate st e = some (true, some pid) := by
      unfold isDuplicate
      rw [if_neg hne]
      simp only [hargmin]
      rw [if_pos hle]
      simp only [hid]
    refine ⟨(argminQ_spec _ _ _ hargmin).2, ?_, dictGet?_dictInsert_self _ _ _⟩
    simp only [trackFace, hdup, hrcd]
  · intro hnodup hcoll
    have hdup : isDuplicate st e = some (false, none) := by
      by_cases hemp : st.tracked_encodings = []
      · unfold isDuplicate
        rw [if_pos hemp]
      · rcases hnodup with hemp' | hmin
        · exact absurd hemp' hemp
        · cases hargmin : argminQ (st.tracked_encodings.map (fun t => sqDist t e)) with
          | none =>
              unfold isDuplicate
              rw [if_neg hemp]
              simp only [hargmin]
          | some p =>
              obtain ⟨i, d⟩ := p
              unfold isDuplicate
              rw [if_neg hemp]
              simp only [hargmin]
              rw [if_neg (not_le_of_lt (hmin i d hargmin))]
    simp only [trackFace, hdup, hcoll]

/-- Sample registry record for the tracker witnesses. -/
def recSample : Record := mkNewRecord "person_001" 0 3 [0] none none

/-- Sample tracker state: one tracked identity, squared threshold 1
(`duplicate_threshold` is an `__init__` parameter), quality mode off. -/
def stSample : TrackerState :=
  ⟨[("person_001", recSample)], [[0]], ["person_001"], 2, 1, none,
   [("person_001", recSample)]⟩

/-- Witness for C1: a re-observation of the only tracked identity. -/
theorem track_face_matching_witness :
    (trackFace stSample ⟨0⟩ [1] (0, 0, 0, 0) 5 7).map (fun r => r.1) =
      some (some "person_001", false) := by
  have H := (track_face_matching stSample ⟨0⟩ [1] (0, 0, 0, 0) 5 7).1 0 1
    "person_001" recSample
    (by norm_num [stSample, argminQ, argminAux, sqDist])
    (by norm_num [stSample])
    rfl
    (by simp [stSample, dictGet?])
  rw [H.2.1]
  rfl

theorem handleQuality_cases (st : TrackerState) (c : Collector) (img : Image)
    (e : Encoding) (loc : Location) (now : ℚ) (ts : Nat) :
    (∃ st', handleQualityCollection st c img e loc now ts = ((none, false), st') ∧
      st'.registry = st.registry ∧ st'.disk = st.disk ∧
      st'.tracked_ids = st.tracked_ids ∧
      st'.tracked_encodings = st.tracked_encodings ∧
      st'.next_person_id = st.next_person_id) ∨
    (∃ benc rcd st', handleQualityCollection st c img e loc now ts =
        ((some (personIdString st.next_person_id), true), st') ∧
      st'.registry = dictInsert (personIdString st.next_person_id) rcd st.registry ∧
      st'.disk = st'.registry ∧
      st'.tracked_ids = st.tracked_ids ++ [personIdString st.next_person_id] ∧
      st'.tracked_encodings = st.tracked_encodings ++ [benc] ∧
      st'.next_person_id = st.next_person_id + 1) := by
  cases hfind : findMatchingPending st.duplicate_threshold_sq e c.pending with
  | none =>
      simp only [handleQualityCollection, hfind]
      cases hc1 : (addFrame (mkPendingHash e ts) img e loc
          (startCollection (mkPendingHash e ts) c)).1 with
      | false =>
          simp only [hc1, Bool.false_eq_true, if_false]
          exact Or.inl ⟨_, rfl, rfl, rfl, rfl, rfl, rfl⟩
      | true =>
          simp only [hc1, if_true]
          cases hg : (getBestFrame (mkPendingHash e ts)
              (addFrame (mkPendingHash e ts) img e loc
                (startCollection (mkPendingHash e ts) c)).2).1.1 with
          | none =>
              simp only [hg]
              exact Or.inl ⟨_, rfl, rfl, rfl, rfl, rfl, rfl⟩
          | some best =>
              simp only [hg]
              exact Or.inr ⟨best.2.1, _, _, rfl, rfl, rfl, rfl, rfl, rfl⟩
  | some h0 =>
      simp only [handleQualityCollection, hfind]
      cases hc1 : (addFrame h0 img e loc c).1 with
      | false =>
          simp only [hc1, Bool.false_eq_true, if_false]
          exact Or.inl ⟨_, rfl, rfl, rfl, rfl, rfl, rfl⟩
      | true =>
          simp only [hc1, if_true]
          cases hg : (getBestFrame h0 (addFrame h0 img e loc c).2).1.1 with
          | none =>
              simp only [hg]
              exact Or.inl ⟨_, rfl, rfl, rfl, rfl, rfl, rfl⟩
          | some best =>
              simp only [hg]
              exact Or.inr ⟨best.2.1, _, _, rfl, rfl, rfl, rfl, rfl, rfl⟩

theorem trackFace_cases (st : TrackerState) (img : Image) (e : Encoding)
    (loc : Location) (now : ℚ) (ts : Nat) (r : (Option String × Bool) × TrackerState)
    (htf : trackFace st img e loc now ts = some r) :
    (∃ pid rcd, dictGet? pid st.registry = some rcd ∧
      r.1 = (some pid, false) ∧
      r.2.registry = dictInsert pid
        { rcd with detection_count := rcd.detection_count + 1, last_seen := now }
        st.registry ∧
      r.2.disk = (if (rcd.detection_count + 1) % 10 = 0 then r.2.registry
        else st.disk) ∧
      r.2.tracked_ids = st.tracked_ids ∧
      r.2.tracked_encodings = st.tracked_encodings ∧
      r.2.next_person_id = st.next_person_id) ∨
    (∃ benc rcd, r.1 = (some (personIdString st.next_person_id), true) ∧
      r.2.registry = dictInsert (personIdString st.next_person_id) rcd st.registry ∧
      r.2.disk = r.2.registry ∧
      r.2.tracked_ids = st.tracked_ids ++ [personIdString st.next_person_id] ∧
      r.2.tracked_encodings = st.tracked_encodings ++ [benc] ∧
      r.2.next_person_id = st.next_person_id + 1) ∨
    (r.1 = (none, false) ∧ r.2.registry = st.registry ∧ r.2.disk = st.disk ∧
      r.2.tracked_ids = st.tracked_ids ∧
      r.2.tracked_encodings = st.tracked_encodings ∧
      r.2.next_person_id = st.next_person_id) := by
  cases hdup : isDuplicate st e with
  | none =>
      simp only [trackFace, hdup] at htf
      exact Option.noConfusion htf
  | some p =>
      obtain ⟨isdup, pid?⟩ := p
      cases isdup with
      | true =>
          cases pid? with
          | none =>
              simp only [trackFace, hdup] at htf
              exact Option.noConfusion htf
          | some pid =>
              cases hrcd : dictGet? pid st.registry with
              | none =>
                  simp only [trackFace, hdup, hrcd] at htf
                  exact Option.noConfusion htf
              | some rcd =>
                  simp only [trackFace, hdup, hrcd, Option.some_inj] at htf
                  subst htf
                  exact Or.inl ⟨pid, rcd, hrcd, rfl, rfl, rfl, rfl, rfl, rfl⟩
      | false =>
          cases hcoll : st.collector with
          | none =>
              simp only [trackFace, hdup, hcoll, Option.some_inj] at htf
              subst htf
              exact Or.inr (Or.inl ⟨e, mkNewRecord (personIdString st.next_person_id)
                now ts e none none, rfl, rfl, rfl, rfl, rfl, rfl⟩)
          | some c =>
              simp only [trackFace, hdup, hcoll, Option.some_inj] at htf
              subst htf
              rcases handleQuality_cases st c img e loc now ts with
                ⟨st', heq, h1, h2, h3, h4, h5⟩ | ⟨benc, rcd, st', heq, h1, h2, h3, h4, h5⟩
              · refine Or.inr (Or.inr ?_)
                rw [heq]
                exact ⟨rfl, h1, h2, h3, h4, h5⟩
              · refine Or.inr (Or.inl ?_)
                rw [heq]
                exact ⟨benc, rcd, rfl, h1, h2, h3, h4, h5⟩

/-- C3 counterexample: a re-observation mutates the in-memory registry
(`detection_count` becomes 2) but the registry file is *not* rewritten —
`track_face` persists the duplicate path only every 10th detection — so
right after this mutation the record on disk still carries
`detection_count = 1` and the file differs from the in-memory registry. -/
theorem registry_persistence_counterexample :
    (trackFace stSample ⟨0⟩ [0] (0, 0, 0, 0) 5 7).map
      (fun r => ((dictGet? "person_001" r.2.registry).map Record.detection_count,
                 (dictGet? "person_001" r.2.disk).map Record.detection_count)) =
      some (some 2, some 1) := by
  norm_num [trackFace, isDuplicate, stSample, argminQ, argminAux, sqDist,
    dictInsert, dictGet?, recSample, mkNewRecord, updEntry]

/-- C3 (amended): enrollment of a new identity (either path),
`store_api_response` on a present id and `reset` rewrite the registry file
to equal the in-memory registry; the re-observation path, however, persists
only when the updated `detection_count` is a multiple of 10 and otherwise
leaves the file as it was; calls that only buffer frames mutate nothing and
write nothing. -/
theorem registry_persistence_amended (st : TrackerState) (img : Image)
    (e : Encoding) (loc : Location) (now : ℚ) (ts : Nat) (info : String) :
    (∀ r, trackFace st img e loc now ts = some r →
      (r.1.2 = true → r.2.disk = r.2.registry) ∧
      (r.1.1 = none → r.2.registry = st.registry ∧ r.2.disk = st.disk) ∧
      (∀ pid, r.1 = (some pid, false) → ∀ rcd, dictGet? pid st.registry = some rcd →
        ((rcd.detection_count + 1) % 10 = 0 → r.2.disk = r.2.registry) ∧
        ((rcd.detection_count + 1) % 10 ≠ 0 → r.2.disk = st.disk))) ∧
    (∀ pid rcd, dictGet? pid st.registry = some rcd →
      (storeApiResponse st pid info).disk = (storeApiResponse st pid info).registry) ∧
    (resetTracker st).disk = (resetTracker st).registry := by
  refine ⟨?_, ?_, rfl⟩
  · intro r htf
    rcases trackFace_cases st img e loc now ts r htf with
      ⟨pid0, rcd0, hrcd0, hr1, hreg, hdisk, hids, hencs, hnext⟩ |
      ⟨benc, rcd0, hr1, hreg, hdisk, hids, hencs, hnext⟩ |
      ⟨hr1, hreg, hdisk, hids, hencs, hnext⟩
    · refine ⟨?_, ?_, ?_⟩
      · intro ht
        rw [hr1] at ht
        simp at ht
      · intro hn
        rw [hr1] at hn
        simp at hn
      · intro pid hpid rcd hrcd
        rw [hr1] at hpid
        have hpe : pid0 = pid := by
          injection hpid with h1 h2
          injection h1
        subst hpe
        have hre : rcd0 = rcd := by
          rw [hrcd0] at hrcd
          exact Option.some_inj.mp hrcd
        subst hre
        constructor
        · intro h10
          rw [hdisk, if_pos h10]
        · intro h10
          rw [hdisk, if_neg h10]
    · refine ⟨fun _ => hdisk, ?_, ?_⟩
      · intro hn
        rw [hr1] at hn
        simp at hn
      · intro pid hpid
        rw [hr1] at hpid
        simp at hpid
    · refine ⟨?_, fun _ => ⟨hreg, hdisk⟩, ?_⟩
      · intro ht
        rw [hr1] at ht
        simp at ht
      · intro pid hpid
        rw [hr1] at hpid
        simp at hpid
  · intro pid rcd h
    simp only [storeApiResponse, h]

/-- Witness for C3 (amended) on a concrete `store_api_response`. -/
theorem registry_persistence_amended_witness :
    (storeApiResponse stSample "person_001" "info").disk =
      (storeApiResponse stSample "person_001" "info").registry :=
  (registry_persistence_amended stSample ⟨0⟩ [0] (0, 0, 0, 0) 5 7 "info").2.1
    "person_001" recSample (by simp [stSample, dictGet?])

/-- The tracker's representation invariant: the two match lists run in
lockstep (equal length, position `i` of both describing one identity) and
every tracked id has a registry entry. -/
def trackerInv (st : TrackerState) : Prop :=
  st.tracked_encodings.length = st.tracked_ids.length ∧
  ∀ pid ∈ st.tracked_ids, (dictGet? pid st.registry).isSome

theorem dictGet?_isSome_of_mem_keys {α : Type} (k : String)
    (d : List (String × α)) (h : k ∈ d.map (·.1)) : (dictGet? k d).isSome := by
  induction d with
  | nil => simp at h
  | cons p rest ih =>
      simp only [List.map_cons, List.mem_cons] at h
      by_cases hp : p.1 = k
      · simp [dictGet?, hp]
      · simp only [dictGet?, hp, if_false]
        rcases h with h | h
        · exact absurd h.symm hp
        · exact ih h

theorem loadRegistry_content (reg : Registry) (encOf : String → Option Encoding)
    (st : TrackerState) :
    (loadRegistry (.content reg) encOf st).tracked_encodings =
      st.tracked_encodings ++
        (reg.filterMap (fun p => (encOf p.2.image_path).map (fun e => (e, p.1)))).map (·.1) ∧
    (loadRegistry (.content reg) encOf st).tracked_ids =
      st.tracked_ids ++
        (reg.filterMap (fun p => (encOf p.2.image_path).map (fun e => (e, p.1)))).map (·.2) ∧
    ((maxSuffixes reg).isSome ∨ reg = [] →
      (loadRegistry (.content reg) encOf st).registry = reg) ∧
    (¬ (maxSuffixes reg).isSome → reg ≠ [] →
      (loadRegistry (.content reg) encOf st).registry = []) ∧
    (∀ m, reg ≠ [] → maxSuffixes reg = some m →
      (loadRegistry (.content reg) encOf st).next_person_id = m + 1) := by
  by_cases hemp : reg = []
  · subst hemp
    refine ⟨rfl, rfl, fun _ => rfl, fun _ h => absurd rfl h, fun m h => absurd rfl h⟩
  · have hne : reg.isEmpty = false := by
      cases reg with
      | nil => exact absurd rfl hemp
      | cons p rest => rfl
    cases hmax : maxSuffixes reg with
    | none =>
        simp only [loadRegistry, hne, Bool.false_eq_true, if_false, hmax]
        refine ⟨trivial, trivial, ?_, ?_, ?_⟩
        · intro h
          rcases h with h | h
          · simp at h
          · exact absurd h hemp
        · intro _ _
          trivial
        · intro m _ hm
          exact Option.noConfusion hm
    | some m0 =>
        simp only [loadRegistry, hne, Bool.false_eq_true, if_false, hmax]
        refine ⟨trivial, trivial, fun _ => trivial, ?_, ?_⟩
        · intro h _
          exact absurd rfl h
        · intro m _ hm
          obtain rfl := Option.some_inj.mp hm
          rfl

theorem keptEnc (encOf : String → Option Encoding) (reg : Registry) :
    (reg.filterMap (fun p => (encOf p.2.image_path).map (fun e => (e, p.1)))).map (·.1) =
      reg.filterMap (fun p => encOf p.2.image_path) := by
  induction reg with
  | nil => rfl
  | cons p rest ih =>
      cases he : encOf p.2.image_path <;>
        simp [List.filterMap_cons, he, ih]

theorem keptIds (encOf : String → Option Encoding) (reg : Registry) :
    (reg.filterMap (fun p => (encOf p.2.image_path).map (fun e => (e, p.1)))).map (·.2) =
      (reg.filter (fun p => (encOf p.2.image_path).isSome)).map (·.1) := by
  induction reg with
  | nil => rfl
  | cons p rest ih =>
      cases he : encOf p.2.image_path <;>
        simp [List.filterMap_cons, List.filter_cons, he, ih]

/-- A fresh tracker state as after `__init__` before `_load_registry`
(squared threshold 1, quality mode off). -/
def freshTracker : TrackerState := ⟨[], [], [], 1, 1, none, []⟩

/-- A registry whose only key lacks the `person_NNN` shape. -/
def badReg : Registry := [("alice", mkNewRecord "alice" 0 0 [0] none none)]

/-- An encoding recomputation that succeeds on every stored image. -/
def encConst : String → Option Encoding := fun _ => some [0]

/-- C9 counterexample: loading a registry with the malformed key `"alice"`
populates the match lists, then the max-suffix computation raises and the
fallback clears only `registry` — leaving a tracked id with no registry
entry, so the invariant is broken by `_load_registry` itself. -/
theorem tracker_inv_counterexample :
    (loadRegistry (.content badReg) encConst freshTracker).tracked_ids = ["alice"] ∧
    (loadRegistry (.content badReg) encConst freshTracker).registry = [] ∧
    ¬ trackerInv (loadRegistry (.content badReg) encConst freshTracker) := by
  have hids : (loadRegistry (.content badReg) encConst freshTracker).tracked_ids =
      ["alice"] := by decide
  have hreg : (loadRegistry (.content badReg) encConst freshTracker).registry =
      [] := by decide
  refine ⟨hids, hreg, ?_⟩
  intro hinv
  have hm := hinv.2 "alice" (by rw [hids]; exact List.mem_singleton.mpr rfl)
  rw [hreg] at hm
  simp [dictGet?] at hm

/-- C9 (amended): the lockstep/registry-membership invariant is preserved by
every `track_face` outcome, by `reset`, and by registry load from the fresh
initial state provided the load does not hit the malformed-key fallback:
a missing or unreadable file, an empty registry, or a registry all of whose
keys carry a parsable numeric suffix all preserve it (a key that fails to
parse aborts the max-suffix computation *after* the match lists were
populated, clearing only the registry — the counterexample). -/
theorem tracker_inv_amended (st : TrackerState) (img : Image) (e : Encoding)
    (loc : Location) (now : ℚ) (ts : Nat) (encOf : String → Option Encoding)
    (reg : Registry) :
    (∀ r, trackFace st img e loc now ts = some r → trackerInv st → trackerInv r.2) ∧
    trackerInv (resetTracker st) ∧
    (trackerInv st → trackerInv (loadRegistry .missing encOf st)) ∧
    (st.tracked_ids = [] → st.tracked_encodings = [] →
      trackerInv (loadRegistry .unreadable encOf st)) ∧
    (st.tracked_ids = [] → st.tracked_encodings = [] →
      (reg = [] ∨ (maxSuffixes reg).isSome) →
      trackerInv (loadRegistry (.content reg) encOf st)) := by
  refine ⟨?_, ?_, fun h => h, ?_, ?_⟩
  · intro r htf hinv
    rcases trackFace_cases st img e loc now ts r htf with
      ⟨pid0, rcd0, hrcd0, hr1, hreg, hdisk, hids, hencs, hnext⟩ |
      ⟨benc, rcd0, hr1, hreg, hdisk, hids, hencs, hnext⟩ |
      ⟨hr1, hreg, hdisk, hids, hencs, hnext⟩
    · constructor
      · rw [hids, hencs]
        exact hinv.1
      · intro pid hm
        rw [hreg]
        rw [hids] at hm
        exact dictGet?_dictInsert_isSome _ _ _ _ (hinv.2 pid hm)
    · constructor
      · rw [hids, hencs]
        simp [hinv.1]
      · intro pid hm
        rw [hreg]
        rw [hids] at hm
        rcases List.mem_append.mp hm with hm | hm
        · exact dictGet?_dictInsert_isSome _ _ _ _ (hinv.2 pid hm)
        · obtain rfl := List.mem_singleton.mp hm
          rw [dictGet?_dictInsert_self]
          rfl
    · constructor
      · rw [hids, hencs]
        exact hinv.1
      · intro pid hm
        rw [hreg]
        rw [hids] at hm
        exact hinv.2 pid hm
  · exact ⟨rfl, fun pid hm => absurd hm (List.not_mem_nil pid)⟩
  · intro h1 h2
    constructor
    · show st.tracked_encodings.length = st.tracked_ids.length
      rw [h1, h2]
      rfl
    · intro pid hm
      rw [show (loadRegistry .unreadable encOf st).tracked_ids = st.tracked_ids
        from rfl, h1] at hm
      exact absurd hm (List.not_mem_nil pid)
  · intro h1 h2 h3
    obtain ⟨henc, hids, hregf, -, -⟩ := loadRegistry_content reg encOf st
    constructor
    · rw [henc, hids, h1, h2]
      simp
    · intro pid hm
      rw [hregf (Or.symm h3)]
      rw [hids, h1, List.nil_append, keptIds] at hm
      rcases List.mem_map.mp hm with ⟨p, hp, rfl⟩
      exact dictGet?_isSome_of_mem_keys _ _
        (List.mem_map_of_mem _ (List.mem_of_mem_filter hp))

/-- A well-formed one-record registry (numeric suffix 2). -/
def goodReg : Registry := [("person_002", mkNewRecord "person_002" 0 0 [0] none none)]

/-- Witness for C9 on a concrete well-formed registry load. -/
theorem tracker_inv_amended_witness :
    trackerInv (loadRegistry (.content goodReg) encConst freshTracker) :=
  (tracker_inv_amended freshTracker ⟨0⟩ [0] (0, 0, 0, 0) 0 0 encConst
    goodReg).2.2.2.2 rfl rfl (Or.inr (by decide))

/-- C7: a failed registry load (unreadable file or invalid JSON) falls back
to an empty in-memory registry instead of raising, and a record whose
encoding recomputation fails (missing image, load error or no face found)
is omitted from the in-memory match lists — the tracked ids are exactly the
registry entries whose recomputation succeeded, in registry order, while
initialization still completes. -/
theorem load_failure_semantics (reg : Registry) (encOf : String → Option Encoding)
    (st : TrackerState) (h1 : st.tracked_ids = []) (h2 : st.tracked_encodings = []) :
    (loadRegistry .unreadable encOf st).registry = [] ∧
    (loadRegistry (.content reg) encOf st).tracked_ids =
      (reg.filter (fun p => (encOf p.2.image_path).isSome)).map (·.1) ∧
    (loadRegistry (.content reg) encOf st).tracked_encodings =
      reg.filterMap (fun p => encOf p.2.image_path) := by
  obtain ⟨henc, hids, -, -, -⟩ := loadRegistry_content reg encOf st
  refine ⟨rfl, ?_, ?_⟩
  · rw [hids, h1, List.nil_append, keptIds]
  · rw [henc, h2, List.nil_append, keptEnc]

/-- An encoding recomputation that only works for `person_001`'s image. -/
def encSel : String → Option Encoding :=
  fun s => if s = "detected_faces/person_001_3.png" then some [0] else none

/-- A registry with one loadable and one unloadable record. -/
def mixedReg : Registry :=
  [("person_001", recSample), ("person_002", mkNewRecord "person_002" 0 4 [0] none none)]

/-- Witness for C7: the record whose image cannot be re-encoded is dropped
from the match set. -/
theorem load_failure_semantics_witness :
    (loadRegistry (.content mixedReg) encSel freshTracker).tracked_ids =
      ["person_001"] := by
  have h := (load_failure_semantics mixedReg encSel freshTracker rfl rfl).2.1
  rw [h]
  decide

theorem foldl_max_bound (l : List Nat) :
    ∀ a : Nat, a ≤ l.foldl Nat.max a ∧ ∀ x ∈ l, x ≤ l.foldl Nat.max a := by
  induction l with
  | nil => intro a; exact ⟨le_refl _, fun x hx => absurd hx (List.not_mem_nil x)⟩
  | cons y ys ih =>
      intro a
      constructor
      · exact le_trans (Nat.le_max_left a y) (ih (Nat.max a y)).1
      · intro x hx
        rcases List.mem_cons.mp hx with rfl | hx
        · exact le_trans (Nat.le_max_right a x) (ih (Nat.max a x)).1
        · exact (ih (Nat.max a y)).2 x hx

/-- C8: `_generate_person_id` returns `person_{next_person_id}` and
increments the counter; the numeric suffix of a generated id is exactly the
counter value it came from, so later-minted ids have strictly greater
suffixes; and after loading a non-empty registry whose keys parse,
`next_person_id` is one greater than the maximum suffix present — in
particular strictly greater than every loaded suffix. -/
theorem person_id_monotonic (st : TrackerState) (m n : Nat) (reg : Registry)
    (encOf : String → Option Encoding) (st0 : TrackerState) (mx : Nat)
    (hmn : m < n) (hreg : reg ≠ []) (hmax : maxSuffixes reg = some mx) :
    generatePersonId st = (personIdString st.next_person_id,
      { st with next_person_id := st.next_person_id + 1 }) ∧
    idSuffix (personIdString n) = some n ∧
    (∀ a b, idSuffix (personIdString m) = some a →
      idSuffix (personIdString n) = some b → a < b) ∧
    (loadRegistry (.content reg) encOf st0).next_person_id = mx + 1 ∧
    (∀ p ∈ reg, ∀ s, idSuffix p.1 = some s →
      s < (loadRegistry (.content reg) encOf st0).next_person_id) := by
  obtain ⟨-, -, -, -, hnext⟩ := loadRegistry_content reg encOf st0
  have hn4 : (loadRegistry (.content reg) encOf st0).next_person_id = mx + 1 :=
    hnext mx hreg hmax
  refine ⟨rfl, idSuffix_personIdString n, ?_, hn4, ?_⟩
  · intro a b ha hb
    rw [idSuffix_personIdString m] at ha
    rw [idSuffix_personIdString n] at hb
    obtain rfl := Option.some_inj.mp ha
    obtain rfl := Option.some_inj.mp hb
    exact hmn
  · intro p hp s hs
    rw [hn4]
    have hle : s ≤ mx := by
      unfold maxSuffixes at hmax
      by_cases hall : ((reg.map (fun p => idSuffix p.1)).all (·.isSome)) = true
      · rw [if_pos hall] at hmax
        obtain rfl := Option.some_inj.mp hmax
        have hmem : s ∈ (reg.map (fun p => idSuffix p.1)).filterMap id := by
          apply List.mem_filterMap.mpr
          refine ⟨some s, ?_, rfl⟩
          have hmm2 : idSuffix p.1 ∈ reg.map (fun p => idSuffix p.1) :=
            List.mem_map_of_mem _ hp
          rwa [hs] at hmm2
        exact (foldl_max_bound _ 0).2 s hmem
      · rw [if_neg hall] at hmax
        exact Option.noConfusion hmax
    omega

/-- Witness for C8 on a concrete one-record registry. -/
theorem person_id_monotonic_witness :
    (loadRegistry (.content goodReg) encConst freshTracker).next_person_id = 2 + 1 :=
  (person_id_monotonic freshTracker 1 2 goodReg encConst freshTracker 2
    (by decide) (by decide) (by decide)).2.2.2.1



/-- The collection after `add_frame` appended the current crop, encoding and
location (`collection['frames'].append(...)` etc. with the counter bump). -/
def bufferedCollection (col : Collection) (img : Image) (e : Encoding)
    (loc : Location) : Collection :=
  ⟨col.frames ++ [img], col.encodings ++ [e], col.locations ++ [loc],
   col.count + 1⟩

/-- The collector state right after `add_frame` stored the buffered
collection back under its pending hash. -/
def collectorAfterAdd (c : Collector) (h : String) (col : Collection)
    (img : Image) (e : Encoding) (loc : Location) : Collector :=
  { c with pending := dictInsert h (bufferedCollection col img e loc) c.pending }

/-- The tracker state written by the commit step of
`_handle_quality_collection` when the best frame has encoding `benc` and
sharpness `s` and the collector was left as `c3`. -/
def committedState (st : TrackerState) (c3 : Collector) (benc : Encoding)
    (s : ℚ) (now : ℚ) (ts : Nat) : TrackerState :=
  { registry := dictInsert (personIdString st.next_person_id)
      (mkNewRecord (personIdString st.next_person_id) now ts benc (some s)
        (some (getQualityRating s))) st.registry
    tracked_encodings := st.tracked_encodings ++ [benc]
    tracked_ids := st.tracked_ids ++ [personIdString st.next_person_id]
    next_person_id := st.next_person_id + 1
    duplicate_threshold_sq := st.duplicate_threshold_sq
    collector := some c3
    disk := dictInsert (personIdString st.next_person_id)
      (mkNewRecord (personIdString st.next_person_id) now ts benc (some s)
        (some (getQualityRating s))) st.registry }

/-- C4: quality-gated enrollment — while the matched pending collection has
fewer than `num_frames` frames after adding the current one, `track_face`
buffers the crop and returns `(None, False)`; on the call that completes the
collection it commits the sharpest buffered crop (first maximum of the
Laplacian-variance scores, as `select_best_face` computes it): the record
saved under the freshly minted `person_{next_person_id}` carries that
maximal sharpness and the matching encoding, and `(new_id, True)` is
returned with the counter advanced. -/
theorem quality_gated_enrollment (st : TrackerState) (c : Collector)
    (col : Collection) (img : Image) (e : Encoding) (loc : Location) (now : ℚ)
    (ts : Nat) (h : String)
    (hcoll : st.collector = some c)
    (hdup : isDuplicate st e = some (false, none))
    (hfind : findMatchingPending st.duplicate_threshold_sq e c.pending = some h)
    (hget : dictGet? h c.pending = some col) :
    (col.count + 1 < c.num_frames →
      trackFace st img e loc now ts = some ((none, false),
        { st with collector := some (collectorAfterAdd c h col img e loc) }) ∧
      dictGet? h (collectorAfterAdd c h col img e loc).pending =
        some (bufferedCollection col img e loc)) ∧
    (c.num_frames ≤ col.count + 1 →
      ∃ i s st', trackFace st img e loc now ts =
          some ((some (personIdString st.next_person_id), true), st') ∧
        dictGet? (personIdString st.next_person_id) st'.registry =
          some (mkNewRecord (personIdString st.next_person_id) now ts
            ((col.encodings ++ [e]).getD i [])
            (some s) (some (getQualityRating s))) ∧
        ((col.frames ++ [img]).map Image.sharpness).get? i = some s ∧
        (∀ x ∈ (col.frames ++ [img]).map Image.sharpness, x ≤ s) ∧
        st'.next_person_id = st.next_person_id + 1) := by
  have htf : trackFace st img e loc now ts =
      some (handleQualityCollection st c img e loc now ts) := by
    simp only [trackFace, hdup, hcoll]
  have hadd : addFrame h img e loc c =
      (decide (c.num_frames ≤ col.count + 1), collectorAfterAdd c h col img e loc) := by
    simp only [addFrame, hget, bufferedCollection, collectorAfterAdd]
  constructor
  · intro hlt
    have hcfalse : decide (c.num_frames ≤ col.count + 1) = false :=
      decide_eq_false (by omega)
    constructor
    · rw [htf]
      simp only [handleQualityCollection, hfind, hadd, hcfalse,
        Bool.false_eq_true, if_false]
    · exact dictGet?_dictInsert_self _ _ _
  · intro hcomp
    have hctrue : decide (c.num_frames ≤ col.count + 1) = true :=
      decide_eq_true hcomp
    have hget2 : dictGet? h (collectorAfterAdd c h col img e loc).pending =
        some (bufferedCollection col img e loc) :=
      dictGet?_dictInsert_self _ _ _
    have hmapne : (col.frames ++ [img]).map Image.sharpness ≠ [] := by simp
    cases hma : argmaxQ ((col.frames ++ [img]).map Image.sharpness) with
    | none => exact absurd ((argmaxQ_eq_none _).mp hma) hmapne
    | some p =>
        obtain ⟨i, s⟩ := p
        have hbest : getBestFrame h (collectorAfterAdd c h col img e loc) =
            ((some ((col.frames ++ [img]).getD i default,
              (col.encodings ++ [e]).getD i [],
              (col.locations ++ [loc]).getD i default), s),
             { collectorAfterAdd c h col img e loc with
               pending := dictRemove h (collectorAfterAdd c h col img e loc).pending }) := by
          simp only [getBestFrame, hget2, bufferedCollection, hma]
        refine ⟨i, s,
          committedState st
            { collectorAfterAdd c h col img e loc with
              pending := dictRemove h (collectorAfterAdd c h col img e loc).pending }
            ((col.encodings ++ [e]).getD i []) s now ts,
          ?_, ?_, (argmaxQ_spec _ _ _ hma).1,
          (argmaxQ_spec _ _ _ hma).2, rfl⟩
        · rw [htf]
          simp only [handleQualityCollection, hfind, hadd, hctrue, if_true, hbest,
            committedState]
        · exact dictGet?_dictInsert_self _ _ _

/-- A pending collection one frame short of completion (sharpness scores
1, 9, 4, 2). -/
def colSample : Collection :=
  ⟨[⟨1⟩, ⟨9⟩, ⟨4⟩, ⟨2⟩], [[0], [0], [0], [0]],
   [(0, 0, 0, 0), (0, 0, 0, 0), (0, 0, 0, 0), (0, 0, 0, 0)], 4⟩

/-- A collector configured for 5 frames holding `colSample`. -/
def qCollector : Collector := ⟨5, [("ph", colSample)]⟩

/-- A tracker in quality mode with `qCollector` pending and nothing tracked. -/
def stQuality : TrackerState := ⟨[], [], [], 1, 1, some qCollector, []⟩

/-- Witness for C4: the fifth frame completes the collection and mints
`person_001`. -/
theorem quality_gated_enrollment_witness :
    (trackFace stQuality ⟨3⟩ [0] (0, 0, 0, 0) 0 7).map (fun r => r.1) =
      some (some (personIdString 1), true) ∧ personIdString 1 = "person_001" := by
  obtain ⟨i, s, st', heq, -, -, -, -⟩ :=
    (quality_gated_enrollment stQuality qCollector colSample ⟨3⟩ [0]
      (0, 0, 0, 0) 0 7 "ph" rfl rfl
      (by norm_num [findMatchingPending, matchesPending, sqDist, qCollector,
        colSample, stQuality, List.find?])
      rfl).2 (by norm_num [qCollector, colSample])
  constructor
  · rw [heq]
    rfl
  · show String.mk (personIdChars 1) = "person_001"
    simp [personIdChars, padChars3, natDecimal, digitChar]
